import Mathlib

/-!
Verification of the drawdown-analyzer script (`drawdown_app.py`).

The computational kernel and the statistics expressions of the script are
embedded as Lean functions over `List ℚ` (a pandas `Series` of closing
prices becomes the list of its values; a date-indexed frame becomes a list
of `(date, close)` pairs with dates as naturals). The script's top-level
control flow (fetch guards, two-ticker alignment, the display/error
branches) is embedded as a function from the fetch results to the list of
observable events the script produces on that run.
-/

namespace DrawdownApp

/-- Embedding of `prices.cummax()` below the first element: `cummaxAux m l`
is the running maximum of `l` with everything seen so far summarised by `m`. -/
def cummaxAux (m : ℚ) : List ℚ → List ℚ
  | [] => []
  | p :: ps => max m p :: cummaxAux (max m p) ps

/-- Embedding of `prices.cummax()` (pandas running maximum). -/
def cummax : List ℚ → List ℚ
  | [] => []
  | p :: ps => p :: cummaxAux p ps

/-- Embedding of `calculate_drawdown` (lines 49-52):
`cumulative_max = prices.cummax()`;
`drawdown = (prices - cumulative_max) / cumulative_max * 100`;
returns `(drawdown, cumulative_max)`. -/
def calculate_drawdown (prices : List ℚ) : List ℚ × List ℚ :=
  let cumulative_max := cummax prices
  (List.zipWith (fun p m => (p - m) / m * 100) prices cumulative_max, cumulative_max)

/-- Running maximum of `prices[0..t]` (the quantity the spec calls the
"running peak"): the fold of `max` over the first `t+1` entries. -/
def runMax (prices : List ℚ) (t : Nat) : ℚ :=
  match prices with
  | [] => 0
  | p :: ps => (ps.take t).foldl max p

/-- Embedding of `drawdown.min()` (line 73): the minimum of a non-empty
series, folded from the head. -/
def seriesMin : List ℚ → ℚ
  | [] => 0
  | p :: ps => ps.foldl min p

/-- Embedding of `drawdown.idxmin()` (line 74) on a positional index:
pandas returns the label of the first occurrence of the minimum. -/
def idxmin (xs : List ℚ) : Nat :=
  xs.findIdx (fun x => decide (x = seriesMin xs))

/-- Embedding of `drawdown.iloc[-1]` (lines 107, 127): the latest value. -/
def currentDrawdown (dd : List ℚ) : ℚ :=
  dd.getLast?.getD 0

/-- Embedding of `drawdown[drawdown < 0].mean()` (lines 237, 250): pandas
yields NaN on an empty selection, modelled as `none`. -/
def avgNegDrawdown (dd : List ℚ) : Option ℚ :=
  let neg := dd.filter (fun x => decide (x < 0))
  if neg.isEmpty then none else some (neg.sum / (neg.length : ℚ))

/-- Embedding of `(drawdown <= c).sum()` (lines 239-240, 253-254). -/
def countAtOrBelow (c : ℚ) (dd : List ℚ) : Nat :=
  (dd.filter (fun x => decide (x ≤ c))).length

/-- Embedding of `(drawdown < -0.5).sum() / len(drawdown) * 100`
(lines 238, 251). -/
def timeInDrawdownPct (dd : List ℚ) : ℚ :=
  (((dd.filter (fun x => decide (x < -(1/2)))).length : ℚ) / (dd.length : ℚ)) * 100

end DrawdownApp

namespace DrawdownApp

/-- `cummaxAux` preserves length. -/
theorem cummaxAux_length (m : ℚ) (l : List ℚ) :
    (cummaxAux m l).length = l.length := by
  induction l generalizing m with
  | nil => rfl
  | cons p ps ih => simp [cummaxAux, ih]

/-- `cummax` preserves length. -/
theorem cummax_length (l : List ℚ) : (cummax l).length = l.length := by
  cases l with
  | nil => rfl
  | cons p ps => simp [cummax, cummaxAux_length]

theorem cummaxAux_getD (l : List ℚ) :
    ∀ (m : ℚ) (i : Nat), i < l.length →
      (cummaxAux m l).getD i 0 = (l.take (i + 1)).foldl max m := by
  induction l with
  | nil => intro m i h; simp at h
  | cons p ps ih =>
    intro m i h
    cases i with
    | zero => simp [cummaxAux]
    | succ i =>
      have h' : i < ps.length := by simpa using h
      simpa [cummaxAux, List.take_succ_cons] using ih (max m p) i h'

/-- Pointwise value of the running maximum: entry `i` of `cummax l` is the
maximum of `l[0..i]`. -/
theorem cummax_getD (l : List ℚ) (i : Nat) (h : i < l.length) :
    (cummax l).getD i 0 = runMax l i := by
  cases l with
  | nil => simp at h
  | cons p ps =>
    cases i with
    | zero => simp [cummax, runMax]
    | succ i =>
      have h' : i < ps.length := by simpa using h
      simpa [cummax, runMax] using cummaxAux_getD ps p i h'

theorem runMax_zero (p : ℚ) (ps : List ℚ) : runMax (p :: ps) 0 = p := rfl

/-- Recurrence of the running maximum: `runMax l (t+1) = max (runMax l t) l[t+1]`. -/
theorem runMax_succ (l : List ℚ) (t : Nat) (h : t + 1 < l.length) :
    runMax l (t + 1) = max (runMax l t) (l.getD (t + 1) 0) := by
  cases l with
  | nil => simp at h
  | cons p ps =>
    have ht : t < ps.length := by simpa using h
    have : ps.take (t + 1) = ps.take t ++ [ps.getD t 0] := by
      rw [List.take_succ]
      congr 1
      rw [List.getElem?_eq_getElem ht]
      simp [List.getD_eq_getElem?_getD, List.getElem?_eq_getElem ht]
    simp [runMax, this, List.foldl_append]

/-- Each price is at most the running maximum at its own index. -/
theorem getD_le_runMax (l : List ℚ) (t : Nat) (h : t < l.length) :
    l.getD t 0 ≤ runMax l t := by
  cases t with
  | zero =>
    cases l with
    | nil => simp at h
    | cons p ps => simp [runMax]
  | succ t =>
    rw [runMax_succ l t h]
    exact le_max_right _ _

/-- The running maximum is non-decreasing. -/
theorem runMax_mono (l : List ℚ) (t : Nat) (h : t + 1 < l.length) :
    runMax l t ≤ runMax l (t + 1) := by
  rw [runMax_succ l t h]
  exact le_max_left _ _

/-- On strictly positive prices the running maximum is strictly positive. -/
theorem runMax_pos (l : List ℚ) (hpos : ∀ p ∈ l, 0 < p) :
    ∀ t, t < l.length → 0 < runMax l t := by
  intro t
  induction t with
  | zero =>
    intro h
    cases l with
    | nil => simp at h
    | cons p ps => simpa [runMax] using hpos p (List.mem_cons_self p ps)
  | succ t ih =>
    intro h
    rw [runMax_succ l t h]
    exact lt_max_of_lt_left (ih (Nat.lt_of_succ_lt h))

theorem zipWith_getD (f : ℚ → ℚ → ℚ) :
    ∀ (l1 l2 : List ℚ) (i : Nat), i < l1.length → i < l2.length →
      (List.zipWith f l1 l2).getD i 0 = f (l1.getD i 0) (l2.getD i 0) := by
  intro l1
  induction l1 with
  | nil => intro l2 i h1 _; simp at h1
  | cons a l1 ih =>
    intro l2 i h1 h2
    cases l2 with
    | nil => simp at h2
    | cons b l2 =>
      cases i with
      | zero => simp
      | succ i =>
        have h1' : i < l1.length := by simpa using h1
        have h2' : i < l2.length := by simpa using h2
        simpa using ih l2 i h1' h2'

/-- Lengths of the two components of `calculate_drawdown`. -/
theorem calculate_drawdown_lengths (prices : List ℚ) :
    (calculate_drawdown prices).1.length = prices.length ∧
    (calculate_drawdown prices).2.length = prices.length := by
  constructor
  · simp [calculate_drawdown, List.length_zipWith, cummax_length]
  · simp [calculate_drawdown, cummax_length]

/-- Pointwise value of the drawdown component. -/
theorem calculate_drawdown_fst_getD (prices : List ℚ) (t : Nat) (h : t < prices.length) :
    (calculate_drawdown prices).1.getD t 0 =
      (prices.getD t 0 - runMax prices t) / runMax prices t * 100 := by
  have hc : t < (cummax prices).length := by rw [cummax_length]; exact h
  simp only [calculate_drawdown]
  rw [zipWith_getD _ prices (cummax prices) t h hc, cummax_getD prices t h]

/-- Pointwise value of the peak component. -/
theorem calculate_drawdown_snd_getD (prices : List ℚ) (t : Nat) (h : t < prices.length) :
    (calculate_drawdown prices).2.getD t 0 = runMax prices t := by
  simp only [calculate_drawdown]
  exact cummax_getD prices t h

/-- C1: for every non-empty series of strictly positive prices,
`calculate_drawdown prices` returns a pair `(drawdown, peak)` of sequences
the same length as `prices`, with `peak[0] = prices[0]`,
`peak[t+1] = max (peak[t]) (prices[t+1])`, and
`drawdown[t] = (prices[t] - peak[t]) / peak[t] * 100`. -/
theorem C1_drawdown_peak_recurrence (prices : List ℚ)
    (hne : prices ≠ []) (hpos : ∀ p ∈ prices, 0 < p) :
    (calculate_drawdown prices).1.length = prices.length ∧
    (calculate_drawdown prices).2.length = prices.length ∧
    (calculate_drawdown prices).2.getD 0 0 = prices.getD 0 0 ∧
    (∀ t, t + 1 < prices.length →
      (calculate_drawdown prices).2.getD (t + 1) 0 =
        max ((calculate_drawdown prices).2.getD t 0) (prices.getD (t + 1) 0)) ∧
    (∀ t, t < prices.length →
      (calculate_drawdown prices).1.getD t 0 =
        (prices.getD t 0 - (calculate_drawdown prices).2.getD t 0) /
          (calculate_drawdown prices).2.getD t 0 * 100) := by
  refine ⟨(calculate_drawdown_lengths prices).1, (calculate_drawdown_lengths prices).2,
    ?_, ?_, ?_⟩
  · have h0 : 0 < prices.length := List.length_pos.mpr hne
    rw [calculate_drawdown_snd_getD prices 0 h0]
    cases prices with
    | nil => exact absurd rfl hne
    | cons p ps => simp [runMax]
  · intro t ht
    rw [calculate_drawdown_snd_getD prices (t + 1) ht,
      calculate_drawdown_snd_getD prices t (Nat.lt_of_succ_lt ht),
      runMax_succ prices t ht]
  · intro t ht
    rw [calculate_drawdown_fst_getD prices t ht, calculate_drawdown_snd_getD prices t ht]

/-- Witness for C1 at the concrete series `[100, 90, 120]`. -/
theorem C1_drawdown_peak_recurrence_witness :
    (([100, 90, 120] : List ℚ) ≠ [] ∧ ∀ p ∈ ([100, 90, 120] : List ℚ), 0 < p) ∧
    (∀ t, t + 1 < ([100, 90, 120] : List ℚ).length →
      (calculate_drawdown [100, 90, 120]).2.getD (t + 1) 0 =
        max ((calculate_drawdown [100, 90, 120]).2.getD t 0)
          (([100, 90, 120] : List ℚ).getD (t + 1) 0)) := by
  refine ⟨⟨by decide, by decide⟩, ?_⟩
  exact (C1_drawdown_peak_recurrence [100, 90, 120] (by decide) (by decide)).2.2.2.1

/-- C2: for every non-empty series of strictly positive prices, the drawdown
series is everywhere at most 0 with `drawdown[0] = 0`, and the peak series is
non-decreasing with `peak[t] ≥ prices[t]` at every index. -/
theorem C2_drawdown_invariants (prices : List ℚ)
    (hne : prices ≠ []) (hpos : ∀ p ∈ prices, 0 < p) :
    (calculate_drawdown prices).1.getD 0 0 = 0 ∧
    (∀ t, t < prices.length → (calculate_drawdown prices).1.getD t 0 ≤ 0) ∧
    (∀ t, t + 1 < prices.length →
      (calculate_drawdown prices).2.getD t 0 ≤ (calculate_drawdown prices).2.getD (t + 1) 0) ∧
    (∀ t, t < prices.length → prices.getD t 0 ≤ (calculate_drawdown prices).2.getD t 0) := by
  refine ⟨?_, ?_, ?_, ?_⟩
  · have h0 : 0 < prices.length := List.length_pos.mpr hne
    rw [calculate_drawdown_fst_getD prices 0 h0]
    cases prices with
    | nil => exact absurd rfl hne
    | cons p ps => simp [runMax]
  · intro t ht
    rw [calculate_drawdown_fst_getD prices t ht]
    have hm : 0 < runMax prices t := runMax_pos prices hpos t ht
    have hpm : prices.getD t 0 ≤ runMax prices t := getD_le_runMax prices t ht
    have hd : (prices.getD t 0 - runMax prices t) / runMax prices t ≤ 0 :=
      div_nonpos_iff.mpr (Or.inr ⟨sub_nonpos.mpr hpm, hm.le⟩)
    linarith
  · intro t ht
    rw [calculate_drawdown_snd_getD prices (t + 1) ht,
      calculate_drawdown_snd_getD prices t (Nat.lt_of_succ_lt ht)]
    exact runMax_mono prices t ht
  · intro t ht
    rw [calculate_drawdown_snd_getD prices t ht]
    exact getD_le_runMax prices t ht

/-- Witness for C2 at the concrete series `[100, 90, 120]`. -/
theorem C2_drawdown_invariants_witness :
    (([100, 90, 120] : List ℚ) ≠ [] ∧ ∀ p ∈ ([100, 90, 120] : List ℚ), 0 < p) ∧
    (calculate_drawdown [100, 90, 120]).1.getD 0 0 = 0 ∧
    (∀ t, t < ([100, 90, 120] : List ℚ).length →
      (calculate_drawdown [100, 90, 120]).1.getD t 0 ≤ 0) := by
  refine ⟨⟨by decide, by decide⟩, ?_, ?_⟩
  · exact (C2_drawdown_invariants [100, 90, 120] (by decide) (by decide)).1
  · exact (C2_drawdown_invariants [100, 90, 120] (by decide) (by decide)).2.1

/-- C3: for strictly positive prices, `drawdown[t] = 0` exactly when
`prices[t]` equals the running maximum of `prices[0..t]`, and at every other
index the drawdown is strictly negative. -/
theorem C3_zero_iff_at_peak (prices : List ℚ)
    (_hne : prices ≠ []) (hpos : ∀ p ∈ prices, 0 < p)
    (t : Nat) (ht : t < prices.length) :
    ((calculate_drawdown prices).1.getD t 0 = 0 ↔ prices.getD t 0 = runMax prices t) ∧
    (prices.getD t 0 ≠ runMax prices t → (calculate_drawdown prices).1.getD t 0 < 0) := by
  rw [calculate_drawdown_fst_getD prices t ht]
  have hm : 0 < runMax prices t := runMax_pos prices hpos t ht
  have hpm : prices.getD t 0 ≤ runMax prices t := getD_le_runMax prices t ht
  constructor
  · constructor
    · intro h
      rcases mul_eq_zero.mp h with h' | h'
      · rcases div_eq_zero_iff.mp h' with h'' | h''
        · exact sub_eq_zero.mp h''
        · exact absurd h'' (ne_of_gt hm)
      · norm_num at h'
    · intro h
      rw [h]
      simp
  · intro hne'
    have hlt : prices.getD t 0 < runMax prices t := lt_of_le_of_ne hpm hne'
    have hd : (prices.getD t 0 - runMax prices t) / runMax prices t < 0 :=
      div_neg_of_neg_of_pos (sub_neg.mpr hlt) hm
    linarith

/-- Witness for C3 at the series `[100, 90, 120]`, index 1. -/
theorem C3_zero_iff_at_peak_witness :
    ((([100, 90, 120] : List ℚ) ≠ [] ∧ ∀ p ∈ ([100, 90, 120] : List ℚ), 0 < p) ∧
      (1 : Nat) < ([100, 90, 120] : List ℚ).length) ∧
    (([100, 90, 120] : List ℚ).getD 1 0 ≠ runMax [100, 90, 120] 1 →
      (calculate_drawdown [100, 90, 120]).1.getD 1 0 < 0) := by
  refine ⟨⟨⟨by decide, by decide⟩, by decide⟩, ?_⟩
  exact (C3_zero_iff_at_peak [100, 90, 120] (by decide) (by decide) 1 (by decide)).2

/-- C4: `calculate_drawdown` is deterministic and stateless: two invocations
on equal price series return identical `(drawdown, peak)` pairs, in either
order of invocation. -/
theorem C4_deterministic (p1 p2 : List ℚ) (h : p1 = p2) :
    calculate_drawdown p1 = calculate_drawdown p2 ∧
    calculate_drawdown p2 = calculate_drawdown p1 := by
  subst h
  exact ⟨rfl, rfl⟩

/-- Witness for C4 at the concrete series `[100, 90, 95, 80, 120]`. -/
theorem C4_deterministic_witness :
    ([100, 90, 95, 80, 120] : List ℚ) = [100, 90, 95, 80, 120] ∧
    calculate_drawdown [100, 90, 95, 80, 120] = calculate_drawdown [100, 90, 95, 80, 120] := by
  exact ⟨rfl, (C4_deterministic [100, 90, 95, 80, 120] [100, 90, 95, 80, 120] rfl).1⟩

/-- C6: the worked example: prices `[100, 90, 95, 80, 120]` produce
peak `[100, 100, 100, 100, 120]` and drawdown `[0, -10, -5, -20, 0]`; the
maximum drawdown is `-20` at index 3 and the latest drawdown is `0`. -/
theorem C6_worked_example :
    calculate_drawdown [100, 90, 95, 80, 120] =
      ([0, -10, -5, -20, 0], [100, 100, 100, 100, 120]) ∧
    seriesMin (calculate_drawdown [100, 90, 95, 80, 120]).1 = -20 ∧
    idxmin (calculate_drawdown [100, 90, 95, 80, 120]).1 = 3 ∧
    currentDrawdown (calculate_drawdown [100, 90, 95, 80, 120]).1 = 0 := by
  refine ⟨?_, ?_, ?_, ?_⟩ <;>
    norm_num [calculate_drawdown, cummax, cummaxAux, seriesMin, idxmin,
      currentDrawdown, List.findIdx, List.findIdx.go, min_def, max_def]

theorem foldl_min_le_init (l : List ℚ) : ∀ a : ℚ, l.foldl min a ≤ a := by
  induction l with
  | nil => intro a; simp
  | cons x l ih =>
    intro a
    calc (x :: l).foldl min a = l.foldl min (min a x) := rfl
    _ ≤ min a x := ih (min a x)
    _ ≤ a := min_le_left a x

theorem foldl_min_le_mem (l : List ℚ) : ∀ (a x : ℚ), x ∈ l → l.foldl min a ≤ x := by
  induction l with
  | nil => intro a x hx; simp at hx
  | cons y l ih =>
    intro a x hx
    rcases List.mem_cons.mp hx with h | h
    · subst h
      calc (x :: l).foldl min a = l.foldl min (min a x) := rfl
      _ ≤ min a x := foldl_min_le_init l (min a x)
      _ ≤ x := min_le_right a x
    · exact ih (min a y) x h

theorem foldl_min_eq_init_or_mem (l : List ℚ) :
    ∀ a : ℚ, l.foldl min a = a ∨ l.foldl min a ∈ l := by
  induction l with
  | nil => intro a; exact Or.inl rfl
  | cons x l ih =>
    intro a
    rcases ih (min a x) with h | h
    · rcases min_cases a x with ⟨hm, _⟩ | ⟨hm, _⟩
      · exact Or.inl (by simpa [hm] using h)
      · refine Or.inr (List.mem_cons.mpr (Or.inl ?_))
        simpa [hm] using h
    · exact Or.inr (List.mem_cons.mpr (Or.inr h))

/-- `seriesMin` is a lower bound of the series. -/
theorem seriesMin_le (xs : List ℚ) (x : ℚ) (hx : x ∈ xs) : seriesMin xs ≤ x := by
  cases xs with
  | nil => simp at hx
  | cons p ps =>
    rcases List.mem_cons.mp hx with h | h
    · subst h
      exact foldl_min_le_init ps x
    · exact foldl_min_le_mem ps p x h

/-- `seriesMin` of a non-empty series is attained. -/
theorem seriesMin_mem (xs : List ℚ) (hne : xs ≠ []) : seriesMin xs ∈ xs := by
  cases xs with
  | nil => exact absurd rfl hne
  | cons p ps =>
    rcases foldl_min_eq_init_or_mem ps p with h | h
    · exact List.mem_cons.mpr (Or.inl h)
    · exact List.mem_cons.mpr (Or.inr h)

/-- `idxmin` is a valid index of a non-empty series. -/
theorem idxmin_lt_length (xs : List ℚ) (hne : xs ≠ []) : idxmin xs < xs.length :=
  List.findIdx_lt_length_of_exists ⟨seriesMin xs, seriesMin_mem xs hne, by simp⟩

/-- The value at `idxmin` is the minimum. -/
theorem getD_idxmin (xs : List ℚ) (hne : xs ≠ []) :
    xs.getD (idxmin xs) 0 = seriesMin xs := by
  have hlt : idxmin xs < xs.length := idxmin_lt_length xs hne
  have := @List.findIdx_getElem _ (fun x => decide (x = seriesMin xs)) xs hlt
  rw [List.getD_eq_getElem?_getD, List.getElem?_eq_getElem hlt]
  simpa using this

/-- Ties are broken by the first occurrence: every index before `idxmin`
carries a value strictly greater than the minimum. -/
theorem lt_of_before_idxmin (xs : List ℚ) (j : Nat) (hj : j < idxmin xs) :
    seriesMin xs < xs.getD j 0 := by
  have hjl : j < xs.length := Nat.lt_of_lt_of_le hj (List.findIdx_le_length _)
  have hne : xs ≠ [] := by
    intro h
    subst h
    simp at hjl
  have hnp := List.not_of_lt_findIdx hj
  rw [List.getD_eq_getElem?_getD, List.getElem?_eq_getElem hjl]
  simp only [decide_eq_false_iff_not] at hnp
  have hmem : xs.getD j 0 ∈ xs := by
    rw [List.getD_eq_getElem?_getD, List.getElem?_eq_getElem hjl]
    exact List.getElem_mem hjl
  have hle : seriesMin xs ≤ xs.getD j 0 := seriesMin_le xs _ hmem
  rw [List.getD_eq_getElem?_getD, List.getElem?_eq_getElem hjl] at hle
  exact lt_of_le_of_ne hle (fun h => hnp h.symm)

/-- The latest value of a non-empty series is the value at the final index. -/
theorem currentDrawdown_eq_getD_last (xs : List ℚ) (hne : xs ≠ []) :
    currentDrawdown xs = xs.getD (xs.length - 1) 0 := by
  have h : xs.length - 1 < xs.length := by
    have : 0 < xs.length := List.length_pos.mpr hne
    omega
  rw [currentDrawdown, List.getLast?_eq_getElem?, List.getD_eq_getElem?_getD,
    List.getElem?_eq_getElem h]

/-- `avgNegDrawdown` is undefined exactly when no value is strictly negative. -/
theorem avgNegDrawdown_isNone_iff (dd : List ℚ) :
    (avgNegDrawdown dd).isNone ↔ ∀ i, i < dd.length → 0 ≤ dd.getD i 0 := by
  have hstep : (avgNegDrawdown dd).isNone ↔ ∀ x ∈ dd, 0 ≤ x := by
    rw [avgNegDrawdown]
    by_cases h : (dd.filter (fun x => decide (x < 0))).isEmpty
    · rw [if_pos h]
      rw [List.isEmpty_iff] at h
      rw [List.filter_eq_nil_iff] at h
      simp only [Option.isNone_none, true_iff]
      intro x hx
      have := h x hx
      simp only [decide_eq_true_eq] at this
      exact le_of_not_lt this
    · rw [if_neg h]
      rw [List.isEmpty_iff, List.filter_eq_nil_iff] at h
      push_neg at h
      obtain ⟨x, hx, hpx⟩ := h
      simp only [decide_eq_true_eq, not_not] at hpx
      constructor
      · intro hfalse
        simp at hfalse
      · intro hall
        exact absurd (hall x hx) (not_le.mpr hpx)
  rw [hstep]
  constructor
  · intro h i hi
    apply h
    rw [List.getD_eq_getElem?_getD, List.getElem?_eq_getElem hi]
    exact List.getElem_mem hi
  · intro h x hx
    obtain ⟨i, hi, hix⟩ := List.mem_iff_getElem.mp hx
    have := h i hi
    rw [List.getD_eq_getElem?_getD, List.getElem?_eq_getElem hi] at this
    simpa [hix] using this

/-- The length of a filtered list equals the number of indices whose entry
satisfies the predicate. -/
theorem length_filter_eq_card_indices (p : ℚ → Bool) (l : List ℚ) :
    (l.filter p).length =
      ((List.range l.length).filter (fun i => p (l.getD i 0))).length := by
  induction l with
  | nil => rfl
  | cons a l ih =>
    rw [List.length_cons, List.range_succ_eq_map]
    rw [List.filter_cons, List.filter_cons]
    have hmap : ((List.range l.length).map Nat.succ).filter
        (fun i => p ((a :: l).getD i 0)) =
        ((List.range l.length).filter (fun i => p (l.getD i 0))).map Nat.succ := by
      rw [List.filter_map]
      congr 1
    simp only [List.getD_cons_zero]
    by_cases hpa : p a
    · simp only [hpa, if_pos, cond_true]
      rw [hmap]
      simp only [List.length_cons, List.length_map]
      omega
    · simp only [hpa, Bool.false_eq_true, if_neg, cond_false, not_false_eq_true]
      rw [hmap]
      simp only [List.length_map]
      omega

/-- C7: the summary statistics of a drawdown series: the minimum is attained
at `idxmin` with ties broken by the first occurrence; the latest value is the
value at the final index; the mean over strictly-negative values is undefined
exactly when no value is negative (in particular for prices `[50, 50, 50]`,
whose drawdown is `[0, 0, 0]`); the threshold counts are the numbers of
indices at or below `-10` and `-20`; and the time-in-drawdown figure is the
fraction of indices strictly below `-0.5`, scaled by 100. -/
theorem C7_summary_statistics (dd : List ℚ) (hne : dd ≠ []) :
    idxmin dd < dd.length ∧
    dd.getD (idxmin dd) 0 = seriesMin dd ∧
    (∀ i, i < dd.length → seriesMin dd ≤ dd.getD i 0) ∧
    (∀ j, j < idxmin dd → seriesMin dd < dd.getD j 0) ∧
    currentDrawdown dd = dd.getD (dd.length - 1) 0 ∧
    ((avgNegDrawdown dd).isNone ↔ ∀ i, i < dd.length → 0 ≤ dd.getD i 0) ∧
    countAtOrBelow (-10) dd =
      ((List.range dd.length).filter (fun i => decide (dd.getD i 0 ≤ -10))).length ∧
    countAtOrBelow (-20) dd =
      ((List.range dd.length).filter (fun i => decide (dd.getD i 0 ≤ -20))).length ∧
    timeInDrawdownPct dd * (dd.length : ℚ) =
      (((List.range dd.length).filter
        (fun i => decide (dd.getD i 0 < -(1/2)))).length : ℚ) * 100 ∧
    ((calculate_drawdown [50, 50, 50]).1 = [0, 0, 0] ∧
      avgNegDrawdown [0, 0, 0] = none) := by
  refine ⟨idxmin_lt_length dd hne, getD_idxmin dd hne, ?_, ?_,
    currentDrawdown_eq_getD_last dd hne, avgNegDrawdown_isNone_iff dd, ?_, ?_, ?_, ?_, ?_⟩
  · intro i hi
    apply seriesMin_le
    rw [List.getD_eq_getElem?_getD, List.getElem?_eq_getElem hi]
    exact List.getElem_mem hi
  · intro j hj
    exact lt_of_before_idxmin dd j hj
  · exact length_filter_eq_card_indices _ dd
  · exact length_filter_eq_card_indices _ dd
  · rw [timeInDrawdownPct, length_filter_eq_card_indices (fun x => decide (x < -(1/2))) dd]
    have hlen : (0 : ℚ) < (dd.length : ℚ) := by
      have : 0 < dd.length := List.length_pos.mpr hne
      exact_mod_cast this
    field_simp
  · norm_num [calculate_drawdown, cummax, cummaxAux, min_def, max_def]
  · rfl

/-- Witness for C7 at the drawdown series `[0, -10, -5, -20, 0]`. -/
theorem C7_summary_statistics_witness :
    ([0, -10, -5, -20, 0] : List ℚ) ≠ [] ∧
    idxmin [0, -10, -5, -20, 0] < ([0, -10, -5, -20, 0] : List ℚ).length ∧
    ([0, -10, -5, -20, 0] : List ℚ).getD (idxmin [0, -10, -5, -20, 0]) 0 =
      seriesMin [0, -10, -5, -20, 0] := by
  refine ⟨by decide, ?_, ?_⟩
  · exact (C7_summary_statistics [0, -10, -5, -20, 0] (by decide)).1
  · exact (C7_summary_statistics [0, -10, -5, -20, 0] (by decide)).2.1

/-- Embedding of `df1.index.intersection(df2.index)` (line 81): the labels of
the first index that also occur in the second, in the order of the first. -/
def indexIntersection (xs ys : List Nat) : List Nat :=
  xs.filter (fun d => ys.contains d)

/-- Embedding of `df.loc[ds]` (lines 82-83) on a date-indexed frame: the rows
selected by the labels in `ds`, in the order of `ds`. -/
def locRows (s : List (Nat × ℚ)) (ds : List Nat) : List (Nat × ℚ) :=
  ds.filterMap (fun d => s.find? (fun r => r.1 == d))

theorem locRows_map_fst (s : List (Nat × ℚ)) :
    ∀ ds : List Nat, (∀ d ∈ ds, ∃ r ∈ s, r.1 = d) →
      (locRows s ds).map Prod.fst = ds := by
  intro ds
  induction ds with
  | nil => intro _; rfl
  | cons d ds ih =>
    intro h
    obtain ⟨r, hr, hrd⟩ := h d (List.mem_cons_self d ds)
    have hsome : (s.find? (fun r => r.1 == d)).isSome := by
      rw [List.find?_isSome]
      exact ⟨r, hr, by simp [hrd]⟩
    obtain ⟨r2, hr2⟩ := Option.isSome_iff_exists.mp hsome
    have hr2d : r2.1 = d := by
      have := List.find?_some hr2
      simpa using this
    rw [locRows, List.filterMap_cons, hr2]
    have htail := ih (fun x hx => h x (List.mem_cons_of_mem d hx))
    rw [locRows] at htail
    simp [htail, hr2d]

theorem mem_indexIntersection (xs ys : List Nat) (d : Nat) :
    d ∈ indexIntersection xs ys ↔ d ∈ xs ∧ d ∈ ys := by
  simp [indexIntersection, List.mem_filter]

/-- C5: in two-ticker mode both frames are restricted to the intersection of
their date indexes before the kernel runs: the two restricted frames have
equal length, their date indexes both equal the intersection, the common
index is strictly ascending, it holds exactly the dates present in both
frames, and on the concrete frames over dates `{1..5}` and `{2..6}` the
aligned pair covers exactly `{2..5}` with length 4. -/
theorem C5_two_ticker_alignment (s1 s2 : List (Nat × ℚ))
    (h1 : (s1.map Prod.fst).Pairwise (· < ·))
    (_h2 : (s2.map Prod.fst).Pairwise (· < ·)) :
    (locRows s1 (indexIntersection (s1.map Prod.fst) (s2.map Prod.fst))).length =
      (locRows s2 (indexIntersection (s1.map Prod.fst) (s2.map Prod.fst))).length ∧
    (locRows s1 (indexIntersection (s1.map Prod.fst) (s2.map Prod.fst))).map Prod.fst =
      indexIntersection (s1.map Prod.fst) (s2.map Prod.fst) ∧
    (locRows s2 (indexIntersection (s1.map Prod.fst) (s2.map Prod.fst))).map Prod.fst =
      indexIntersection (s1.map Prod.fst) (s2.map Prod.fst) ∧
    (indexIntersection (s1.map Prod.fst) (s2.map Prod.fst)).Pairwise (· < ·) ∧
    (∀ d, d ∈ indexIntersection (s1.map Prod.fst) (s2.map Prod.fst) ↔
      d ∈ s1.map Prod.fst ∧ d ∈ s2.map Prod.fst) ∧
    (indexIntersection
        (([(1, 10), (2, 11), (3, 12), (4, 13), (5, 14)] : List (Nat × ℚ)).map Prod.fst)
        (([(2, 20), (3, 21), (4, 22), (5, 23), (6, 24)] : List (Nat × ℚ)).map Prod.fst) =
        [2, 3, 4, 5] ∧
      (locRows [(1, 10), (2, 11), (3, 12), (4, 13), (5, 14)] [2, 3, 4, 5]).length = 4 ∧
      (locRows [(2, 20), (3, 21), (4, 22), (5, 23), (6, 24)] [2, 3, 4, 5]).length = 4) := by
  have hmem : ∀ d ∈ indexIntersection (s1.map Prod.fst) (s2.map Prod.fst),
      d ∈ s1.map Prod.fst ∧ d ∈ s2.map Prod.fst := by
    intro d hd
    exact (mem_indexIntersection _ _ d).mp hd
  have hfst1 : (locRows s1 (indexIntersection (s1.map Prod.fst) (s2.map Prod.fst))).map
      Prod.fst = indexIntersection (s1.map Prod.fst) (s2.map Prod.fst) := by
    apply locRows_map_fst
    intro d hd
    obtain ⟨r, hr, hrd⟩ := List.mem_map.mp (hmem d hd).1
    exact ⟨r, hr, hrd⟩
  have hfst2 : (locRows s2 (indexIntersection (s1.map Prod.fst) (s2.map Prod.fst))).map
      Prod.fst = indexIntersection (s1.map Prod.fst) (s2.map Prod.fst) := by
    apply locRows_map_fst
    intro d hd
    obtain ⟨r, hr, hrd⟩ := List.mem_map.mp (hmem d hd).2
    exact ⟨r, hr, hrd⟩
  refine ⟨?_, hfst1, hfst2, ?_, fun d => mem_indexIntersection _ _ d, by decide, by decide,
    by decide⟩
  · have l1 := congrArg List.length hfst1
    have l2 := congrArg List.length hfst2
    rw [List.length_map] at l1 l2
    rw [l1, l2]
  · exact List.Pairwise.filter _ h1

/-- Witness for C5 on the concrete frames over dates `{1..5}` and `{2..6}`. -/
theorem C5_two_ticker_alignment_witness :
    ((([(1, 10), (2, 11), (3, 12), (4, 13), (5, 14)] : List (Nat × ℚ)).map
        Prod.fst).Pairwise (· < ·) ∧
      (([(2, 20), (3, 21), (4, 22), (5, 23), (6, 24)] : List (Nat × ℚ)).map
        Prod.fst).Pairwise (· < ·)) ∧
    (locRows [(1, 10), (2, 11), (3, 12), (4, 13), (5, 14)]
        (indexIntersection
          (([(1, 10), (2, 11), (3, 12), (4, 13), (5, 14)] : List (Nat × ℚ)).map Prod.fst)
          (([(2, 20), (3, 21), (4, 22), (5, 23), (6, 24)] : List (Nat × ℚ)).map
            Prod.fst))).length =
      (locRows [(2, 20), (3, 21), (4, 22), (5, 23), (6, 24)]
        (indexIntersection
          (([(1, 10), (2, 11), (3, 12), (4, 13), (5, 14)] : List (Nat × ℚ)).map Prod.fst)
          (([(2, 20), (3, 21), (4, 22), (5, 23), (6, 24)] : List (Nat × ℚ)).map
            Prod.fst))).length := by
  refine ⟨⟨by decide, by decide⟩, ?_⟩
  exact (C5_two_ticker_alignment
    [(1, 10), (2, 11), (3, 12), (4, 13), (5, 14)]
    [(2, 20), (3, 21), (4, 22), (5, 23), (6, 24)] (by decide) (by decide)).1

/-- Observable events of one run of the script's main block (lines 55-259):
an invocation of `calculate_drawdown`, the display of the
metrics/charts/statistics block, the `st.error` message naming a ticker
(line 257), or the `st.info` prompt (line 259). -/
inductive Event where
  | kernelCall (prices : List ℚ)
  | showMetrics
  | errorMsg (ticker : String)
  | infoMsg
deriving DecidableEq

/-- Outcome of one run: the events in order, and whether the run aborted with
an `AttributeError` from dereferencing `None`. -/
structure RunResult where
  events : List Event
  crashed : Bool
deriving DecidableEq

/-- Closing prices (`df['Close']`) of a date-indexed frame. -/
def closes (s : List (Nat × ℚ)) : List ℚ := s.map Prod.snd

/-- Guard `df is not None and not df.empty` (lines 64 and 77). -/
def validNonempty (df : Option (List (Nat × ℚ))) : Bool :=
  df.isSome && !(df.getD []).isEmpty

/-- Embedding of the script's main block (lines 55-259). `fetch1` and
`fetch2` are the `get_stock_data` results for the two tickers (`none` models
the sentinel returned for an empty or unfetchable series); when `ticker2` is
blank the second fetch is skipped and `df2 = None` (line 62). The guarded
block at line 64 invokes the kernel on ticker 1. The block at line 77, taken
when `df2` is present and non-empty, dereferences `df1.index` (line 81) with
no guard — an `AttributeError` when `df1` is `None` — then aligns both
frames to the common dates, invokes the kernel on each, and displays the
metrics, charts and statistics (lines 97-254). Its `else` branch (line 256)
shows the error message naming `ticker1`. -/
def runApp (ticker1 ticker2 : String) (fetch1 fetch2 : Option (List (Nat × ℚ))) :
    RunResult :=
  if ticker1 = "" then { events := [Event.infoMsg], crashed := false }
  else
    let df2 := if ticker2 = "" then none else fetch2
    let evs1 := if validNonempty fetch1 then
      [Event.kernelCall (closes (fetch1.getD []))] else []
    if validNonempty df2 then
      match fetch1 with
      | none => { events := evs1, crashed := true }
      | some s1 =>
        let s2 := df2.getD []
        let cd := indexIntersection (s1.map Prod.fst) (s2.map Prod.fst)
        { events := evs1 ++ [Event.kernelCall (closes (locRows s1 cd)),
            Event.kernelCall (closes (locRows s2 cd)), Event.showMetrics],
          crashed := false }
    else { events := evs1 ++ [Event.errorMsg ticker1], crashed := false }

/-- C9: in single-ticker mode (`ticker2` blank, so `df2 = None`) the
metrics/charts/statistics block is never displayed even when ticker 1's data
is valid and non-empty: the run invokes the kernel on ticker 1, then takes
the `else` branch and shows the error message naming `ticker1`. -/
theorem C9_single_ticker_shows_error (t1 : String) (s1 : List (Nat × ℚ))
    (f2 : Option (List (Nat × ℚ))) (h1 : t1 ≠ "") (hs : s1 ≠ []) :
    runApp t1 "" (some s1) f2 =
      { events := [Event.kernelCall (closes s1), Event.errorMsg t1],
        crashed := false } ∧
    Event.showMetrics ∉ (runApp t1 "" (some s1) f2).events := by
  have hv : validNonempty (some s1) = true := by
    simp [validNonempty, List.isEmpty_iff, hs]
  have heq : runApp t1 "" (some s1) f2 =
      { events := [Event.kernelCall (closes s1), Event.errorMsg t1],
        crashed := false } := by
    rw [runApp, if_neg h1]
    simp [hv, validNonempty, hs]
  refine ⟨heq, ?_⟩
  rw [heq]
  simp

/-- Witness for C9 with ticker `"SPY"` and a one-row frame. -/
theorem C9_single_ticker_shows_error_witness :
    (("SPY" : String) ≠ "" ∧ ([(1, 100)] : List (Nat × ℚ)) ≠ []) ∧
    Event.showMetrics ∉ (runApp "SPY" "" (some [(1, 100)]) none).events := by
  refine ⟨⟨by decide, by decide⟩, ?_⟩
  exact (C9_single_ticker_shows_error "SPY" [(1, 100)] none (by decide) (by decide)).2

/-- C10: when ticker 1's fetch returns no data but ticker 2's data is valid
and non-empty, the run dereferences `df1.index` on `None` (line 81) and
aborts with an `AttributeError`: no user-visible message is produced. -/
theorem C10_none_df1_crashes (t1 t2 : String) (s2 : List (Nat × ℚ))
    (h1 : t1 ≠ "") (h2 : t2 ≠ "") (hs : s2 ≠ []) :
    runApp t1 t2 none (some s2) = { events := [], crashed := true } ∧
    ∀ tk, Event.errorMsg tk ∉ (runApp t1 t2 none (some s2)).events := by
  have hv : validNonempty (if t2 = "" then none else some s2) = true := by
    rw [if_neg h2]
    simp [validNonempty, List.isEmpty_iff, hs]
  have heq : runApp t1 t2 none (some s2) = { events := [], crashed := true } := by
    rw [runApp, if_neg h1]
    simp only [hv, if_pos]
    simp [validNonempty]
  refine ⟨heq, ?_⟩
  intro tk
  rw [heq]
  simp

/-- Witness for C10 with tickers `"SPY"` and `"QQQ"`. -/
theorem C10_none_df1_crashes_witness :
    (("SPY" : String) ≠ "" ∧ ("QQQ" : String) ≠ "" ∧
      ([(1, 100)] : List (Nat × ℚ)) ≠ []) ∧
    (runApp "SPY" "QQQ" none (some [(1, 100)])).crashed = true := by
  refine ⟨⟨by decide, by decide, by decide⟩, ?_⟩
  rw [(C10_none_df1_crashes "SPY" "QQQ" [(1, 100)] (by decide) (by decide) (by decide)).1]

/-- C8 fails on the code: with a valid ticker 1 (prices `[100, 90]`) and a
ticker 2 whose fetch yields no data, the run invokes `calculate_drawdown` on
ticker 1's prices and then surfaces the error message naming ticker 1 — the
kernel is not short-circuited, and the one message shown names the wrong
(non-offending) ticker. -/
theorem C8_no_data_not_short_circuited :
    runApp "AAA" "BBB" (some [(1, 100), (2, 90)]) none =
      { events := [Event.kernelCall [100, 90], Event.errorMsg "AAA"],
        crashed := false } ∧
    Event.kernelCall [100, 90] ∈
      (runApp "AAA" "BBB" (some [(1, 100), (2, 90)]) none).events ∧
    Event.errorMsg "BBB" ∉
      (runApp "AAA" "BBB" (some [(1, 100), (2, 90)]) none).events := by
  refine ⟨by decide, by decide, by decide⟩
